import Mathlib

/-!
Shallow embedding of the core logic of the RIGOL DHO954 oscilloscope GUI
repository (files `src/rigol_instrument.py` and `src/config.py`), together
with theorems settling the frozen claims about it.

Conventions of the embedding:
* Python strings are modelled as `List Char` (ASCII text; the instrument data
  block is `decode('ascii')`-decoded in the source, so this is exact).
* Python `float` values are modelled as exact rationals `ℚ`; the calibration
  arithmetic of the source is the literal formula, stated here over `ℚ`.
* Code that can raise is modelled with `Option`/`Except`; an `Except.error`
  value corresponds to a Python exception propagating to the caller.
-/

deriving instance DecidableEq for Except

/-- Whitespace characters removed by Python `str.strip()`. -/
def isPySpace (c : Char) : Bool :=
  c = ' ' || c = '\t' || c = '\n' || c = '\r' || c = '\x0b' || c = '\x0c'

/-- Python `str.strip()`: drop leading and trailing whitespace. -/
def pythonStrip (s : List Char) : List Char :=
  ((s.dropWhile isPySpace).reverse.dropWhile isPySpace).reverse

/-- Python `str.split(sep)` for a one-character separator `sep`.
`splitChar c []` is `[[]]`, matching Python where `"".split(",") == [""]`. -/
def splitChar (sep : Char) : List Char → List (List Char)
  | [] => [[]]
  | c :: rest =>
    if c = sep then [] :: splitChar sep rest
    else
      match splitChar sep rest with
      | [] => [[c]]
      | t :: ts => (c :: t) :: ts

/-- Numeric value of an ASCII digit character. -/
def digitVal (c : Char) : ℕ := c.toNat - '0'.toNat

/-- Value of a list of ASCII digits read in base 10. -/
def digitsToNat (ds : List Char) : ℕ :=
  ds.foldl (fun n c => 10 * n + digitVal c) 0

/-- The syntactic pieces of a Python float literal: mantissa sign, integer
digits, fraction digits, exponent sign and exponent digits (`ed = []` when no
exponent part is written). -/
structure FloatRepr where
  neg : Bool
  ip : List Char
  fp : List Char
  eneg : Bool
  ed : List Char
deriving DecidableEq

/-- Recognizer part of Python `float(s)`: optional surrounding whitespace, an
optional sign, a decimal mantissa (digits, optionally with a fractional part,
at least one digit in total), and an optional exponent part.  Returns `none`
exactly when Python raises `ValueError`.  (The special forms `inf`/`nan` and
digit-group underscores accepted by Python are not numeric instrument data
and are not modelled.) -/
def parseFloatRepr (s0 : List Char) : Option FloatRepr :=
  let s := pythonStrip s0
  let signRest : Bool × List Char :=
    match s with
    | '+' :: r => (false, r)
    | '-' :: r => (true, r)
    | _ => (false, s)
  let ipRest := signRest.2.span Char.isDigit
  let fpRest : List Char × List Char :=
    match ipRest.2 with
    | '.' :: r => r.span Char.isDigit
    | _ => ([], ipRest.2)
  if ipRest.1.isEmpty && fpRest.1.isEmpty then none
  else
    match fpRest.2 with
    | [] => some ⟨signRest.1, ipRest.1, fpRest.1, false, []⟩
    | c :: r =>
      if c = 'e' || c = 'E' then
        let expRest : Bool × List Char :=
          match r with
          | '+' :: rr => (false, rr)
          | '-' :: rr => (true, rr)
          | _ => (false, r)
        let ed := expRest.2.span Char.isDigit
        if ed.1.isEmpty || !ed.2.isEmpty then none
        else some ⟨signRest.1, ipRest.1, fpRest.1, expRest.1, ed.1⟩
      else none

/-- The rational value denoted by a parsed float literal. -/
def reprVal (r : FloatRepr) : ℚ :=
  let mant : ℚ := (digitsToNat r.ip : ℚ) +
    (digitsToNat r.fp : ℚ) / (10 : ℚ) ^ r.fp.length
  let sgn : ℚ := if r.neg then -mant else mant
  let e : ℚ := (10 : ℚ) ^ digitsToNat r.ed
  if r.eneg then sgn / e else sgn * e

/-- Python `float(s)`: `none` exactly when Python raises `ValueError`. -/
def parseFloat (s0 : List Char) : Option ℚ := (parseFloatRepr s0).map reprVal

/-- Python `int(q)` applied to a float: truncation toward zero. -/
def truncQ (q : ℚ) : ℤ := if 0 ≤ q then ⌊q⌋ else ⌈q⌉

namespace RigolDHO954

/-- The preamble fields extracted by `get_waveform_data` from the
comma-separated `:WAV:PRE?` response: `x_increment`, `x_origin` are fields
4 and 5, and `y_increment`, `y_origin`, `y_reference` are fields 7, 8, 9. -/
structure Preamble where
  x_increment : ℚ
  x_origin : ℚ
  y_increment : ℚ
  y_origin : ℚ
  y_reference : ℚ
deriving DecidableEq

/-- Lines 178-180 of `rigol_instrument.py` (and 320-322 for digital data):
if the stripped data text starts with a hash, compute
`header_len = int(data_str[1]) + 2` and drop that many characters.
`int` of a non-digit character raises `ValueError`; indexing a
one-character string at position 1 raises `IndexError`. -/
def stripBlockHeader (s : List Char) : Except String (List Char) :=
  match s with
  | c0 :: c1 :: rest =>
    if c0 = '#' then
      if c1.isDigit then Except.ok ((c0 :: c1 :: rest).drop (digitVal c1 + 2))
      else Except.error "invalid literal for int with base 10"
    else Except.ok s
  | [c0] =>
    if c0 = '#' then Except.error "string index out of range"
    else Except.ok s
  | [] => Except.ok []

/-- The list comprehension `[float(x) for x in data_str.split(',')]`:
parses every token, propagating the `ValueError` of the first token that is
not a float literal. -/
def parseSampleTokens : List (List Char) → Except String (List ℚ)
  | [] => Except.ok []
  | t :: rest =>
    match parseFloat t with
    | none => Except.error "could not convert string to float"
    | some q =>
      match parseSampleTokens rest with
      | Except.ok qs => Except.ok (q :: qs)
      | Except.error e => Except.error e

/-- Lines 177-182: strip the raw block text, remove the `#`-header if
present, split on commas and parse every token as a float. -/
def decodeSamples (raw : List Char) : Except String (List ℚ) :=
  match stripBlockHeader (pythonStrip raw) with
  | Except.error e => Except.error e
  | Except.ok ds => parseSampleTokens (splitChar ',' ds)

/-- Lines 183-184, the calibration stage of `get_waveform_data`:
`voltages = [(point - y_reference - y_origin) * y_increment for point in data_points]`
and `times = [x_origin + i * x_increment for i in range(len(voltages))]`.
Returns `(times, voltages)` as the source does at line 187. -/
def calibrate (pre : Preamble) (data_points : List ℚ) : List ℚ × List ℚ :=
  let voltages := data_points.map
    (fun point => (point - pre.y_reference - pre.y_origin) * pre.y_increment)
  let times := (List.range voltages.length).map
    (fun i : ℕ => pre.x_origin + (i : ℚ) * pre.x_increment)
  (times, voltages)

/-- `get_waveform_data` (lines 152-187), modelled from the point where the
preamble has been parsed and the raw data block retrieved: decode the block
and return the calibrated `(times, voltages)` pair, propagating decode
errors. -/
def get_waveform_data (pre : Preamble) (raw_data : List Char) :
    Except String (List ℚ × List ℚ) :=
  match decodeSamples raw_data with
  | Except.error e => Except.error e
  | Except.ok data_points => Except.ok (calibrate pre data_points)

/-- `get_digital_data` (lines 294-328), modelled from the point where the
preamble has been parsed and the raw data block retrieved:
`data_points = [int(float(x)) for x in data_str.split(',')]` and
`times = [x_origin + i * x_increment for i in range(len(data_points))]`. -/
def get_digital_data (pre : Preamble) (raw_data : List Char) :
    Except String (List ℚ × List ℤ) :=
  match decodeSamples raw_data with
  | Except.error e => Except.error e
  | Except.ok qs =>
    let data_points := qs.map truncQ
    let times := (List.range data_points.length).map
      (fun i : ℕ => pre.x_origin + (i : ℚ) * pre.x_increment)
    Except.ok (times, data_points)

/-- `Except` success test. -/
def exceptIsOk {ε α : Type} : Except ε α → Bool
  | Except.ok _ => true
  | Except.error _ => false

end RigolDHO954

/-- A preamble whose constants are the identity calibration used by the
spec round-trip property: `x_increment=1, x_origin=0, y_increment=1,
y_origin=0, y_reference=0` (fields in declaration order). -/
def preUnit : RigolDHO954.Preamble := ⟨1, 0, 1, 0, 0⟩

/-- A preamble with `x_increment = 0`, an instrument response the code does
not reject. -/
def preZero : RigolDHO954.Preamble := ⟨0, 0, 1, 0, 0⟩

namespace RigolDHO954

@[simp] theorem exceptIsOk_ok {ε α : Type} (a : α) :
    exceptIsOk (Except.ok a : Except ε α) = true := rfl

@[simp] theorem exceptIsOk_error {ε α : Type} (e : ε) :
    exceptIsOk (Except.error e : Except ε α) = false := rfl

theorem parseSampleTokens_ok_iff (ts : List (List Char)) :
    exceptIsOk (parseSampleTokens ts) = true ↔
      ∀ t ∈ ts, (parseFloat t).isSome = true := by
  induction ts with
  | nil => simp [parseSampleTokens]
  | cons t rest ih =>
    cases hpf : parseFloat t with
    | none => simp [parseSampleTokens, hpf]
    | some q =>
      cases hrest : parseSampleTokens rest with
      | ok qs => simp_all [parseSampleTokens, hpf, hrest]
      | error e => simp_all [parseSampleTokens, hpf, hrest]

theorem parseSampleTokens_length (ts : List (List Char)) (qs : List ℚ)
    (h : parseSampleTokens ts = Except.ok qs) : qs.length = ts.length := by
  induction ts generalizing qs with
  | nil => simp [parseSampleTokens] at h; simp [← h]
  | cons t rest ih =>
    cases hpf : parseFloat t with
    | none => simp [parseSampleTokens, hpf] at h
    | some q =>
      cases hrest : parseSampleTokens rest with
      | ok qs2 =>
        simp [parseSampleTokens, hpf, hrest] at h
        simp [← h, ih qs2 hrest]
      | error e => simp [parseSampleTokens, hpf, hrest] at h

theorem splitChar_ne_nil (sep : Char) (l : List Char) : splitChar sep l ≠ [] := by
  induction l with
  | nil => simp [splitChar]
  | cons c rest ih =>
    by_cases hc : c = sep
    · simp [splitChar, hc]
    · cases hs : splitChar sep rest with
      | nil => simp [splitChar, hc, hs]
      | cons t ts => simp [splitChar, hc, hs]

end RigolDHO954

namespace RigolDHO954

/-- The time list produced by `calibrate` is strictly increasing whenever
`x_increment` is positive. -/
theorem times_pairwise (x0 xinc : ℚ) (hx : 0 < xinc) (n : ℕ) :
    List.Pairwise (· < ·)
      ((List.range n).map (fun i : ℕ => x0 + (i : ℚ) * xinc)) := by
  rw [List.pairwise_map]
  refine (List.pairwise_lt_range n).imp ?_
  intro a b hab
  have hc : (a : ℚ) < b := by exact_mod_cast hab
  have := mul_lt_mul_of_pos_right hc hx
  linarith

theorem exceptIsOk_get_waveform_data (pre : Preamble) (raw : List Char) :
    exceptIsOk (get_waveform_data pre raw) = exceptIsOk (decodeSamples raw) := by
  cases h : decodeSamples raw <;> simp [get_waveform_data, h]

end RigolDHO954

open RigolDHO954

/-- Parsed float representations of the tokens `1.0`, `2.0`. -/
def sampleReprs2 : List FloatRepr :=
  [⟨false, ['1'], ['0'], false, []⟩, ⟨false, ['2'], ['0'], false, []⟩]

/-- Parsed float representations of the tokens `1.0` through `3.0`. -/
def sampleReprs3 : List FloatRepr :=
  [⟨false, ['1'], ['0'], false, []⟩, ⟨false, ['2'], ['0'], false, []⟩,
   ⟨false, ['3'], ['0'], false, []⟩]

/-- Parsed float representations of the tokens `1.0` through `5.0`. -/
def sampleReprs5 : List FloatRepr :=
  [⟨false, ['1'], ['0'], false, []⟩, ⟨false, ['2'], ['0'], false, []⟩,
   ⟨false, ['3'], ['0'], false, []⟩, ⟨false, ['4'], ['0'], false, []⟩,
   ⟨false, ['5'], ['0'], false, []⟩]

/-- C1: for every preamble and every raw block whose samples parse to the
list `dps` of length `N`, `get_waveform_data` returns the calibrated pair of
sequences, both of length `N`, with
`voltage[i] = (raw[i] - y_reference - y_origin) * y_increment` and
`time[i] = x_origin + i * x_increment` for every `i < N`. -/
theorem get_waveform_data_pointwise (pre : Preamble) (s : List Char)
    (dps : List ℚ) (hp : decodeSamples s = Except.ok dps)
    (i : ℕ) (hi : i < dps.length) :
    get_waveform_data pre s = Except.ok (calibrate pre dps) ∧
    (calibrate pre dps).1.length = dps.length ∧
    (calibrate pre dps).2.length = dps.length ∧
    (calibrate pre dps).2.getD i 0 =
      (dps.getD i 0 - pre.y_reference - pre.y_origin) * pre.y_increment ∧
    (calibrate pre dps).1.getD i 0 =
      pre.x_origin + (i : ℚ) * pre.x_increment := by
  refine ⟨by simp [get_waveform_data, hp], by simp [calibrate],
    by simp [calibrate], ?_, ?_⟩
  · simp only [calibrate]
    rw [List.getD_eq_getElem?_getD, List.getElem?_map,
      List.getElem?_eq_getElem hi, List.getD_eq_getElem?_getD,
      List.getElem?_eq_getElem hi]
    rfl
  · simp only [calibrate]
    rw [List.getD_eq_getElem?_getD, List.getElem?_map,
      List.getElem?_range (by simpa using hi)]
    rfl

/-- Witness for C1 at the block `1.0,2.0,3.0` with index 2. -/
theorem get_waveform_data_pointwise_witness :
    get_waveform_data preUnit "1.0,2.0,3.0".toList =
      Except.ok (calibrate preUnit (List.map reprVal sampleReprs3)) ∧
    (calibrate preUnit (List.map reprVal sampleReprs3)).1.length =
      (List.map reprVal sampleReprs3).length ∧
    (calibrate preUnit (List.map reprVal sampleReprs3)).2.length =
      (List.map reprVal sampleReprs3).length ∧
    (calibrate preUnit (List.map reprVal sampleReprs3)).2.getD 2 0 =
      ((List.map reprVal sampleReprs3).getD 2 0 - preUnit.y_reference -
        preUnit.y_origin) * preUnit.y_increment ∧
    (calibrate preUnit (List.map reprVal sampleReprs3)).1.getD 2 0 =
      preUnit.x_origin + (2 : ℚ) * preUnit.x_increment := by
  have h := get_waveform_data_pointwise preUnit "1.0,2.0,3.0".toList
    (List.map reprVal sampleReprs3) rfl 2 (by decide)
  simpa using h

/-- C2 (amended): every series returned by `get_waveform_data` or
`get_digital_data` has time and value arrays of exactly equal length; the
time sequence is strictly increasing provided the preamble `x_increment` is
positive (the code never checks the sign of `x_increment`, so the unqualified
claim fails, see the counterexample). -/
theorem calibrated_series_invariant (pre : Preamble) (s : List Char) :
    (∀ t v, get_waveform_data pre s = Except.ok (t, v) →
      t.length = v.length ∧
        (0 < pre.x_increment → List.Pairwise (· < ·) t)) ∧
    (∀ t d, get_digital_data pre s = Except.ok (t, d) →
      t.length = d.length ∧
        (0 < pre.x_increment → List.Pairwise (· < ·) t)) := by
  constructor
  · intro t v hok
    cases hd : decodeSamples s with
    | error e => simp [get_waveform_data, hd] at hok
    | ok dps =>
      simp only [get_waveform_data, hd, Except.ok.injEq] at hok
      have ht : (calibrate pre dps).1 = t := congrArg Prod.fst hok
      have hv : (calibrate pre dps).2 = v := congrArg Prod.snd hok
      constructor
      · rw [← ht, ← hv]; simp [calibrate]
      · intro hx
        rw [← ht]
        simp only [calibrate]
        exact times_pairwise _ _ hx _
  · intro t d hok
    cases hd : decodeSamples s with
    | error e => simp [get_digital_data, hd] at hok
    | ok dps =>
      simp only [get_digital_data, hd, Except.ok.injEq] at hok
      have ht : (List.range (dps.map truncQ).length).map
          (fun i : ℕ => pre.x_origin + (i : ℚ) * pre.x_increment) = t :=
        congrArg Prod.fst hok
      have hd2 : dps.map truncQ = d := congrArg Prod.snd hok
      constructor
      · rw [← ht, ← hd2]; simp
      · intro hx
        rw [← ht]
        exact times_pairwise _ _ hx _

/-- C2 counterexample: with a preamble reporting `x_increment = 0` the
decoder happily returns a constant time sequence, which is not strictly
increasing. -/
theorem calibrated_series_counterexample :
    get_waveform_data preZero "1.0,2.0".toList =
      Except.ok ([0, 0], [1, 2]) ∧
    ¬ List.Pairwise (· < ·) ([0, 0] : List ℚ) := by
  constructor
  · have h : get_waveform_data preZero "1.0,2.0".toList =
        Except.ok (calibrate preZero (List.map reprVal sampleReprs2)) := rfl
    rw [h]
    simp [calibrate, preZero, sampleReprs2, reprVal, digitsToNat, digitVal,
      List.foldl, (by decide : List.range 2 = [0, 1])]
  · intro h
    have h0 := (List.pairwise_cons.mp h).1 0 (by simp)
    norm_num at h0

/-- The digital sample list of the run used in the C2 witness. -/
def digitalData2 : List ℤ := (List.map reprVal sampleReprs2).map truncQ

/-- The digital time axis of the run used in the C2 witness. -/
def digitalTimes2 : List ℚ :=
  (List.range digitalData2.length).map
    (fun i : ℕ => preUnit.x_origin + (i : ℚ) * preUnit.x_increment)

/-- Witness for C2 at an analog and a digital decode of `1.0,2.0`. -/
theorem calibrated_series_invariant_witness :
    ((calibrate preUnit (List.map reprVal sampleReprs2)).1.length =
        (calibrate preUnit (List.map reprVal sampleReprs2)).2.length ∧
      List.Pairwise (· < ·)
        (calibrate preUnit (List.map reprVal sampleReprs2)).1) ∧
    (digitalTimes2.length = digitalData2.length ∧
      List.Pairwise (· < ·) digitalTimes2) := by
  have h1 := (calibrated_series_invariant preUnit "1.0,2.0".toList).1
    (calibrate preUnit (List.map reprVal sampleReprs2)).1
    (calibrate preUnit (List.map reprVal sampleReprs2)).2 rfl
  have h2 := (calibrated_series_invariant preUnit "1.0,2.0".toList).2
    digitalTimes2 digitalData2 rfl
  have hx : 0 < preUnit.x_increment := by norm_num [preUnit]
  exact ⟨⟨h1.1, h1.2 hx⟩, h2.1, h2.2 hx⟩

/-- C3 counterexample: the block `#15,1.0,2.0,3.0,4.0,5.0` does not decode
to the claimed series.  The header strip removes `int('1') + 2 = 3`
characters, so the remainder `,1.0,2.0,3.0,4.0,5.0` begins with an empty
token, and `float('')` raises `ValueError`. -/
theorem block_roundtrip_counterexample :
    get_waveform_data preUnit "#15,1.0,2.0,3.0,4.0,5.0".toList ≠
      Except.ok ([0, 1, 2, 3, 4], [1, 2, 3, 4, 5]) := by
  have h : get_waveform_data preUnit "#15,1.0,2.0,3.0,4.0,5.0".toList =
      Except.error "could not convert string to float" := rfl
  rw [h]
  simp

/-- C3 (amended): decoding the block `#15,1.0,2.0,3.0,4.0,5.0` with the
identity preamble raises a decode error (the stripped remainder starts with
an empty token); with the comma after the header removed — block
`#151.0,2.0,3.0,4.0,5.0` — decoding yields exactly the times `[0,1,2,3,4]`
and values `[1,2,3,4,5]`. -/
theorem block_roundtrip_amended :
    get_waveform_data preUnit "#15,1.0,2.0,3.0,4.0,5.0".toList =
      Except.error "could not convert string to float" ∧
    get_waveform_data preUnit "#151.0,2.0,3.0,4.0,5.0".toList =
      Except.ok ([0, 1, 2, 3, 4], [1, 2, 3, 4, 5]) := by
  constructor
  · rfl
  · have h : get_waveform_data preUnit "#151.0,2.0,3.0,4.0,5.0".toList =
        Except.ok (calibrate preUnit (List.map reprVal sampleReprs5)) := rfl
    rw [h]
    simp [calibrate, preUnit, sampleReprs5, reprVal, digitsToNat, digitVal,
      List.foldl, (by decide : List.range 5 = [0, 1, 2, 3, 4])]

/-- C4: on whitespace-stripped block text that starts with a hash whose
following character is the digit of value `d`, the decoder removes exactly
`2 + d` leading characters; on text not starting with a hash it strips
nothing. -/
theorem header_strip_exact (t : List Char) :
    (∀ c rest, c.isDigit = true → t = '#' :: c :: rest →
      stripBlockHeader t = Except.ok (t.drop (digitVal c + 2))) ∧
    (t.head? ≠ some '#' → stripBlockHeader t = Except.ok t) := by
  constructor
  · intro c rest hc ht
    subst ht
    simp [stripBlockHeader, hc]
  · intro hh
    match t with
    | [] => rfl
    | [c0] =>
      have hne : ¬ c0 = '#' := by simpa using hh
      simp [stripBlockHeader, hne]
    | c0 :: c1 :: rest =>
      have hne : ¬ c0 = '#' := by simpa using hh
      simp [stripBlockHeader, hne]

/-- Witness for C4: header `#25…` drops 4 characters; a headerless block is
returned unchanged. -/
theorem header_strip_exact_witness :
    stripBlockHeader "#25abcd".toList =
      Except.ok ("#25abcd".toList.drop (digitVal '2' + 2)) ∧
    stripBlockHeader "1.0,2.0".toList = Except.ok "1.0,2.0".toList :=
  ⟨(header_strip_exact "#25abcd".toList).1 '2' "5abcd".toList (by decide)
      (by decide),
   (header_strip_exact "1.0,2.0".toList).2 (by decide)⟩

/-- C5 counterexample: the block `1.0,abc` has a well-formed (absent) header
and one parseable sample, yet the decode raises, because the comprehension
`[float(x) for x in ...]` fails on the first unparseable token. -/
theorem decode_error_counterexample :
    get_waveform_data preUnit "1.0,abc".toList =
      Except.error "could not convert string to float" ∧
    stripBlockHeader (pythonStrip "1.0,abc".toList) =
      Except.ok "1.0,abc".toList ∧
    (splitChar ',' "1.0,abc".toList).countP
      (fun t => (parseFloat t).isSome) = 1 :=
  ⟨rfl, by decide, by decide⟩

/-- C5 (amended): the waveform decode returns normally exactly when the
header strip succeeds (text not equal to a lone hash, and any hash header
followed by a digit) and every comma-separated token of the remainder parses
as a float; since splitting always yields at least one token, a successful
decode carries at least one sample.  In particular an empty payload fails
(its single empty token is unparseable), and any unparseable token — not
only the zero-sample case — raises. -/
theorem decode_error_characterization (pre : Preamble) (raw : List Char) :
    (exceptIsOk (get_waveform_data pre raw) = true ↔
      ∃ ds, stripBlockHeader (pythonStrip raw) = Except.ok ds ∧
        ∀ t ∈ splitChar ',' ds, (parseFloat t).isSome = true) ∧
    (∀ tv, get_waveform_data pre raw = Except.ok tv → 1 ≤ tv.2.length) := by
  constructor
  · rw [exceptIsOk_get_waveform_data]
    cases hs : stripBlockHeader (pythonStrip raw) with
    | error e =>
      simp only [decodeSamples, hs]
      constructor
      · intro h; exact absurd h (by simp)
      · rintro ⟨ds, hds, -⟩; exact absurd hds (by simp)
    | ok ds =>
      simp only [decodeSamples, hs]
      rw [parseSampleTokens_ok_iff]
      constructor
      · intro hall
        exact ⟨ds, rfl, hall⟩
      · rintro ⟨ds2, hds2, hall⟩
        have hde : ds = ds2 := Except.ok.inj hds2
        exact hde ▸ hall
  · intro tv hok
    cases hd : decodeSamples raw with
    | error e => simp [get_waveform_data, hd] at hok
    | ok dps =>
      simp only [get_waveform_data, hd, Except.ok.injEq] at hok
      have hlen : tv.2.length = dps.length := by
        rw [← hok]; simp [calibrate]
      rw [hlen]
      cases hs : stripBlockHeader (pythonStrip raw) with
      | error e => simp [decodeSamples, hs] at hd
      | ok ds =>
        simp only [decodeSamples, hs] at hd
        have := parseSampleTokens_length _ _ hd
        rw [this]
        have hne := splitChar_ne_nil ',' ds
        exact List.length_pos.mpr hne

/-- Witness for C5: the bare block `5` decodes successfully and carries one
sample. -/
theorem decode_error_characterization_witness :
    exceptIsOk (get_waveform_data preUnit "5".toList) = true ∧
    1 ≤ (calibrate preUnit
      (List.map reprVal [⟨false, ['5'], [], false, []⟩])).2.length :=
  ⟨(decode_error_characterization preUnit "5".toList).1.mpr
      ⟨"5".toList, by decide, by decide⟩,
   (decode_error_characterization preUnit "5".toList).2
      (calibrate preUnit (List.map reprVal [⟨false, ['5'], [], false, []⟩]))
      rfl⟩

namespace RigolDHO954

/-- The `query` method (lines 51-54): send the command to the instrument and
strip surrounding whitespace of the response.  The instrument session is
modelled as a pure response function from command text to raw response
text. -/
def query (resp : String → String) (command : String) : String :=
  String.mk (pythonStrip (resp command).toList)

/-- The SCPI command sent by `measure` (line 200). -/
def measCommand (measurement_type : String) (channel : ℕ) : String :=
  ":MEAS:" ++ measurement_type ++ "? CHAN" ++ toString channel

/-- `measure` (lines 189-203): query the measurement and parse the response
as a float; `float(result)` raises `ValueError` on an unparseable
response. -/
def measure (resp : String → String) (measurement_type : String)
    (channel : ℕ) : Except String ℚ :=
  let result := query resp (measCommand measurement_type channel)
  match parseFloat result.toList with
  | some value => Except.ok value
  | none => Except.error "could not convert string to float"

/-- Python `needle in hay` for strings: substring containment. -/
def containsSub (hay needle : List Char) : Bool :=
  hay.tails.any (fun t => needle.isPrefixOf t)

/-- Python `str.upper()` on one ASCII character. -/
def pyUpperChar (c : Char) : Char :=
  if 'a' ≤ c ∧ c ≤ 'z' then Char.ofNat (c.toNat - 32) else c

/-- The auto-detect marker of `__init__` (line 33):
`'RIGOL' in res.upper() or '0x1AB1' in res`. -/
def isRigolResource (res : String) : Bool :=
  containsSub (res.toList.map pyUpperChar) "RIGOL".toList ||
    containsSub res.toList "0x1AB1".toList

/-- Resource selection of `__init__` (lines 30-44) when no resource string
is given: scan the enumerated resources in order and take the first one
matching the marker; raise `ConnectionError` when none matches, in which
case `open_resource` is never reached and no session is opened. -/
def connectResource (resource_string : Option String)
    (resources : List String) : Except String String :=
  match resource_string with
  | some r => Except.ok r
  | none =>
    match resources.find? isRigolResource with
    | some r => Except.ok r
    | none =>
      Except.error
        "No RIGOL instrument found. Please check connections and drivers."

/-- `set_digital_label` (lines 330-341): validate the channel, then send the
label truncated to its first four characters (`label[:4]`). -/
def set_digital_label (channel : ℤ) (label : String) :
    Except String String :=
  if 0 ≤ channel ∧ channel ≤ 15 then
    Except.ok (":LA:DIG" ++ toString channel ++ ":LAB \"" ++
      String.mk (label.toList.take 4) ++ "\"")
  else Except.error "Digital channel must be between 0 and 15"

/-- `List.find?` returns the first element satisfying the predicate. -/
theorem find?_first {α : Type} (p : α → Bool) :
    ∀ (l : List α) (a : α), l.find? p = some a →
      p a = true ∧ ∃ l1 l2, l = l1 ++ a :: l2 ∧ ∀ x ∈ l1, p x = false := by
  intro l
  induction l with
  | nil => intro a h; simp [List.find?] at h
  | cons x rest ih =>
    intro a h
    by_cases hx : p x = true
    · rw [List.find?_cons_of_pos _ hx] at h
      cases h
      exact ⟨hx, [], rest, rfl, by simp⟩
    · rw [List.find?_cons_of_neg _ hx] at h
      obtain ⟨hp, l1, l2, hsplit, hprev⟩ := ih a h
      refine ⟨hp, x :: l1, l2, by simp [hsplit], ?_⟩
      intro y hy
      rcases List.mem_cons.mp hy with hy | hy
      · subst hy; simpa using hx
      · exact hprev y hy

end RigolDHO954

/-- C6: `measure` returns the (whitespace-stripped) instrument response
parsed as a float, and raises exactly when that text is not parseable as a
float. -/
theorem measure_parses_float (resp : String → String)
    (measurement_type : String) (channel : ℕ) (v : ℚ) :
    (RigolDHO954.measure resp measurement_type channel = Except.ok v ↔
      parseFloat
        (query resp (measCommand measurement_type channel)).toList =
          some v) ∧
    (parseFloat
        (query resp (measCommand measurement_type channel)).toList = none →
      RigolDHO954.measure resp measurement_type channel =
        Except.error "could not convert string to float") := by
  have hm : RigolDHO954.measure resp measurement_type channel =
      (match parseFloat
          (query resp (measCommand measurement_type channel)).toList with
        | some value => Except.ok value
        | none => Except.error "could not convert string to float" :
          Except String ℚ) := rfl
  cases hp : parseFloat
      (query resp (measCommand measurement_type channel)).toList with
  | none => rw [hm, hp]; simp
  | some w => rw [hm, hp]; simp

/-- The instrument response functions used in the C6 witness. -/
def respGood : String → String := fun _ => " 2.5\n"

/-- A response that is not a float literal, e.g. an error string. -/
def respBad : String → String := fun _ => "measure error"

/-- Witness for C6: a numeric response parses, a non-numeric one raises. -/
theorem measure_parses_float_witness :
    RigolDHO954.measure respGood "VPP" 1 = Except.ok (5 / 2) ∧
    RigolDHO954.measure respBad "FREQ" 2 =
      Except.error "could not convert string to float" := by
  constructor
  · refine (measure_parses_float respGood "VPP" 1 (5 / 2)).1.mpr ?_
    have h : parseFloat (query respGood (measCommand "VPP" 1)).toList =
        some (reprVal ⟨false, ['2'], ['5'], false, []⟩) := rfl
    rw [h]
    simp [reprVal, digitsToNat, digitVal, List.foldl]
    norm_num
  · exact (measure_parses_float respBad "FREQ" 2 0).2 (by decide)

/-- C7: when constructed without a resource string, the link selects the
first enumerated resource containing the vendor marker (`RIGOL`
case-insensitively, or `0x1AB1`); when none matches it raises
`ConnectionError`, so no session is opened. -/
theorem connect_auto_detect (resources : List String) :
    (∀ r, connectResource none resources = Except.ok r →
      isRigolResource r = true ∧
        ∃ l1 l2, resources = l1 ++ r :: l2 ∧
          ∀ x ∈ l1, isRigolResource x = false) ∧
    ((∀ x ∈ resources, isRigolResource x = false) →
      connectResource none resources =
        Except.error
          "No RIGOL instrument found. Please check connections and drivers.") := by
  constructor
  · intro r hok
    cases hf : resources.find? isRigolResource with
    | none => simp [connectResource, hf] at hok
    | some r2 =>
      simp only [connectResource, hf, Except.ok.injEq] at hok
      subst hok
      exact find?_first _ _ _ hf
  · intro hall
    have hf : resources.find? isRigolResource = none :=
      List.find?_eq_none.mpr (by intro x hx; simp [hall x hx])
    simp [connectResource, hf]

/-- Witness for C7: a USB resource with the RIGOL vendor id `0x1AB1` is
selected past a non-matching serial resource; a list without a marker
raises. -/
theorem connect_auto_detect_witness :
    (isRigolResource "USB0::0x1AB1::0x044C::DHO9A0000001::INSTR" = true ∧
      ∃ l1 l2,
        ["ASRL1::INSTR", "USB0::0x1AB1::0x044C::DHO9A0000001::INSTR"] =
          l1 ++ "USB0::0x1AB1::0x044C::DHO9A0000001::INSTR" :: l2 ∧
          ∀ x ∈ l1, isRigolResource x = false) ∧
    connectResource none ["ASRL1::INSTR"] =
      Except.error
        "No RIGOL instrument found. Please check connections and drivers." :=
  ⟨(connect_auto_detect
      ["ASRL1::INSTR", "USB0::0x1AB1::0x044C::DHO9A0000001::INSTR"]).1
      "USB0::0x1AB1::0x044C::DHO9A0000001::INSTR" (by decide),
   (connect_auto_detect ["ASRL1::INSTR"]).2 (by decide)⟩

/-- C10: for every digital channel `0 ≤ c ≤ 15` and every label string, the
label is silently truncated to its first four characters, exactly that
truncation is embedded in the SCPI command, and the label itself never
causes an error. -/
theorem set_digital_label_truncates (channel : ℤ) (label : String)
    (h0 : 0 ≤ channel) (h15 : channel ≤ 15) :
    set_digital_label channel label =
      Except.ok (":LA:DIG" ++ toString channel ++ ":LAB \"" ++
        String.mk (label.toList.take 4) ++ "\"") ∧
    (String.mk (label.toList.take 4)).length ≤ 4 := by
  constructor
  · simp [set_digital_label, h0, h15]
  · show (label.toList.take 4).length ≤ 4
    rw [List.length_take]
    exact min_le_left _ _

/-- Witness for C10 at channel 5 with the six-character label `ABCDEF`. -/
theorem set_digital_label_truncates_witness :
    set_digital_label 5 "ABCDEF" =
      Except.ok (":LA:DIG" ++ toString (5 : ℤ) ++ ":LAB \"" ++
        String.mk ("ABCDEF".toList.take 4) ++ "\"") ∧
    (String.mk ("ABCDEF".toList.take 4)).length ≤ 4 :=
  set_digital_label_truncates 5 "ABCDEF" (by decide) (by decide)

namespace Config

/-- Primitive (non-dict) Python values occurring in the configuration. -/
inductive PVal where
  | pstr : String → PVal
  | pint : ℤ → PVal
  | pnum : ℚ → PVal
  | pbool : Bool → PVal
  | pnone : PVal
deriving DecidableEq

/-- A value slot in a dict: a primitive, or a reference to a dict object on
the heap.  References model Python object identity: `dict.copy()` copies the
entry list but shares the referenced dict objects, which is what makes
`Config.__init__` and `reset_to_defaults` alias the nested sections of
`DEFAULT_CONFIG`. -/
inductive HVal where
  | prim : PVal → HVal
  | ref : ℕ → HVal
deriving DecidableEq

/-- A dict object: insertion-ordered association list with unique keys. -/
abbrev Dict := List (String × HVal)

/-- First value bound to a key. -/
def assocGet {κ β : Type} [DecidableEq κ] : List (κ × β) → κ → Option β
  | [], _ => none
  | p :: rest, k => if p.1 = k then some p.2 else assocGet rest k

/-- Update the binding of a key in place, appending when absent: Python
`d[k] = v`. -/
def assocSet {κ β : Type} [DecidableEq κ] :
    List (κ × β) → κ → β → List (κ × β)
  | [], k, v => [(k, v)]
  | p :: rest, k, v =>
    if p.1 = k then (k, v) :: rest else p :: assocSet rest k v

/-- A heap of dict objects: a store from addresses to dicts plus the next
fresh address. -/
structure Heap where
  store : List (ℕ × Dict)
  next : ℕ
deriving DecidableEq

/-- The dict object at an address (the empty dict at dangling addresses,
which well-formed states never expose). -/
def heapGetD (h : Heap) (a : ℕ) : Dict := (assocGet h.store a).getD []

/-- Overwrite the dict object at an address. -/
def heapSet (h : Heap) (a : ℕ) (d : Dict) : Heap :=
  ⟨assocSet h.store a d, h.next⟩

/-- Allocate a fresh dict object, returning the new heap and the fresh
address. -/
def allocDict (h : Heap) (d : Dict) : Heap × ℕ :=
  (⟨(h.next, d) :: h.store, h.next + 1⟩, h.next)

/-- The navigation loop of `Config.set` (lines 136-146 of `config.py`),
acting on the heap from the dict object at address `a`:
`for k in keys[:-1]: if k not in config: config[k] = {}; config = config[k]`
followed by `config[keys[-1]] = value`.  Returns `none` when the Python code
raises: navigating into an existing non-dict value always ends in a
`TypeError` (either at the next `in` test, at the creation assignment, or at
the final item assignment), and this happens before any mutation. -/
def setGo (h : Heap) (a : ℕ) (v : HVal) : List String → Option Heap
  | [] => none
  | [k] => some (heapSet h a (assocSet (heapGetD h a) k v))
  | k :: k2 :: rest =>
    match assocGet (heapGetD h a) k with
    | some (HVal.ref a2) => setGo h a2 v (k2 :: rest)
    | some (HVal.prim _) => none
    | none =>
      let f := (allocDict h []).2
      let h2 := (allocDict h []).1
      let h3 := heapSet h2 a (assocSet (heapGetD h2 a) k (HVal.ref f))
      setGo h3 f v (k2 :: rest)

/-- The walk of `Config.get` (lines 117-126): follow the keys while the
current value is a dict containing the key, otherwise return the default. -/
def getGo (h : Heap) (cur : HVal) (default : HVal) : List String → HVal
  | [] => cur
  | k :: rest =>
    match cur with
    | HVal.ref a =>
      match assocGet (heapGetD h a) k with
      | some v2 => getGo h v2 default rest
      | none => default
    | HVal.prim _ => default

/-- Whether the full key path exists in the configuration. -/
def pathPresent (h : Heap) (cur : HVal) : List String → Bool
  | [] => true
  | k :: rest =>
    match cur with
    | HVal.ref a =>
      match assocGet (heapGetD h a) k with
      | some v2 => pathPresent h v2 rest
      | none => false
    | HVal.prim _ => false

/-- The previously existing dict addresses that `Config.set` navigates
through (and may mutate). -/
def navChain (h : Heap) (a : ℕ) : List String → List ℕ
  | [] => [a]
  | [_] => [a]
  | k :: k2 :: rest =>
    match assocGet (heapGetD h a) k with
    | some (HVal.ref a2) => a :: navChain h a2 (k2 :: rest)
    | _ => [a]

/-- Bound on the address of a reference. -/
def refBound (n : ℕ) : HVal → Bool
  | HVal.ref a => decide (a < n)
  | HVal.prim _ => true

/-- All references of a dict point below the bound. -/
def dictRefsBound (n : ℕ) (d : Dict) : Bool :=
  d.all (fun q => refBound n q.2)

/-- Heap well-formedness: stored addresses and references stay below the
allocation counter. -/
def wfHeap (h : Heap) : Bool :=
  h.store.all (fun p => decide (p.1 < h.next) && dictRefsBound h.next p.2)

/-- Downward reference discipline: every reference points to a strictly
smaller address than the dict containing it.  It holds for the initial
configuration heap and makes navigation chains duplicate-free. -/
def wfDown (h : Heap) : Bool :=
  h.store.all (fun p => dictRefsBound p.1 p.2)

end Config

namespace Config

theorem assocGet_assocSet_self {κ β : Type} [DecidableEq κ]
    (l : List (κ × β)) (k : κ) (v : β) :
    assocGet (assocSet l k v) k = some v := by
  induction l with
  | nil => simp [assocGet, assocSet]
  | cons p rest ih =>
    by_cases hp : p.1 = k
    · simp [assocSet, hp, assocGet]
    · simp [assocSet, hp, assocGet, ih]

theorem assocGet_assocSet_ne {κ β : Type} [DecidableEq κ]
    (l : List (κ × β)) (k k2 : κ) (v : β) (hne : k2 ≠ k) :
    assocGet (assocSet l k v) k2 = assocGet l k2 := by
  induction l with
  | nil => simp [assocGet, assocSet, Ne.symm hne]
  | cons p rest ih =>
    by_cases hp : p.1 = k
    · simp [assocSet, hp, assocGet, Ne.symm hne, ih]
    · by_cases hp2 : p.1 = k2
      · simp [assocSet, hp, assocGet, hp2, hne]
      · simp [assocSet, hp, assocGet, hp2, hne, ih]

theorem mem_assocSet {κ β : Type} [DecidableEq κ]
    {l : List (κ × β)} {k : κ} {v : β} {p : κ × β}
    (hp : p ∈ assocSet l k v) : p ∈ l ∨ p = (k, v) := by
  induction l with
  | nil =>
    simp [assocSet] at hp
    simp [hp]
  | cons q rest ih =>
    by_cases hq : q.1 = k
    · simp only [assocSet, hq, if_pos] at hp
      rcases List.mem_cons.mp hp with hp | hp
      · right; exact hp
      · left; exact List.mem_cons_of_mem _ hp
    · simp only [assocSet, hq, if_neg, not_false_iff] at hp
      rcases List.mem_cons.mp hp with hp | hp
      · left; rw [hp]; exact List.mem_cons_self _ _
      · rcases ih hp with h | h
        · left; exact List.mem_cons_of_mem _ h
        · right; exact h

theorem assocGet_mem {κ β : Type} [DecidableEq κ]
    {l : List (κ × β)} {k : κ} {v : β} (h : assocGet l k = some v) :
    (k, v) ∈ l := by
  induction l with
  | nil => simp [assocGet] at h
  | cons p rest ih =>
    by_cases hp : p.1 = k
    · simp only [assocGet, hp, if_pos, Option.some.injEq] at h
      have hpkv : p = (k, v) := Prod.ext hp h
      rw [← hpkv]
      exact List.mem_cons_self _ _
    · simp only [assocGet, hp, if_neg, not_false_iff] at h
      exact List.mem_cons_of_mem _ (ih h)

theorem heapGetD_heapSet_self (h : Heap) (a : ℕ) (d : Dict) :
    heapGetD (heapSet h a d) a = d := by
  simp [heapGetD, heapSet, assocGet_assocSet_self]

theorem heapGetD_heapSet_ne (h : Heap) (a b : ℕ) (d : Dict) (hne : b ≠ a) :
    heapGetD (heapSet h a d) b = heapGetD h b := by
  simp [heapGetD, heapSet, assocGet_assocSet_ne _ _ _ _ hne]

theorem heapGetD_alloc_self (h : Heap) (d : Dict) :
    heapGetD (allocDict h d).1 (allocDict h d).2 = d := by
  simp [heapGetD, allocDict, assocGet]

theorem heapGetD_alloc_ne (h : Heap) (d : Dict) (b : ℕ) (hb : b ≠ h.next) :
    heapGetD (allocDict h d).1 b = heapGetD h b := by
  simp [heapGetD, allocDict, assocGet, Ne.symm hb]

theorem wfHeap_spec {h : Heap} (hw : wfHeap h = true) {a : ℕ} {d : Dict}
    (hm : (a, d) ∈ h.store) :
    a < h.next ∧ dictRefsBound h.next d = true := by
  have := (List.all_eq_true.mp hw) (a, d) hm
  simpa using this

theorem dictRefsBound_heapGetD {h : Heap} (hw : wfHeap h = true) (a : ℕ) :
    dictRefsBound h.next (heapGetD h a) = true := by
  cases hc : assocGet h.store a with
  | none => simp [heapGetD, hc, dictRefsBound]
  | some d =>
    have hm := assocGet_mem hc
    simp [heapGetD, hc, (wfHeap_spec hw hm).2]

theorem refBound_of_mem {n : ℕ} {d : Dict} (hd : dictRefsBound n d = true)
    {q : String × HVal} (hq : q ∈ d) : refBound n q.2 = true :=
  (List.all_eq_true.mp hd) q hq

theorem refBound_mono {n m : ℕ} (hnm : n ≤ m) {v : HVal}
    (hv : refBound n v = true) : refBound m v = true := by
  cases v with
  | prim p => rfl
  | ref a =>
    simp only [refBound, decide_eq_true_eq] at hv ⊢
    omega

theorem dictRefsBound_mono {n m : ℕ} (hnm : n ≤ m) {d : Dict}
    (hd : dictRefsBound n d = true) : dictRefsBound m d = true := by
  rw [dictRefsBound, List.all_eq_true]
  intro q hq
  exact refBound_mono hnm (refBound_of_mem hd hq)

theorem dictRefsBound_assocSet {n : ℕ} {d : Dict} {k : String} {v : HVal}
    (hd : dictRefsBound n d = true) (hv : refBound n v = true) :
    dictRefsBound n (assocSet d k v) = true := by
  rw [dictRefsBound, List.all_eq_true]
  intro q hq
  rcases mem_assocSet hq with h | h
  · exact refBound_of_mem hd h
  · rw [h]; exact hv

theorem wfHeap_heapSet {h : Heap} (hw : wfHeap h = true) {a : ℕ}
    (ha : a < h.next) {d : Dict} (hd : dictRefsBound h.next d = true) :
    wfHeap (heapSet h a d) = true := by
  rw [wfHeap, List.all_eq_true]
  intro p hp
  simp only [heapSet] at hp ⊢
  rcases mem_assocSet hp with hmem | hmem
  · exact (List.all_eq_true.mp hw) p hmem
  · rw [hmem]
    simp only [Bool.and_eq_true, decide_eq_true_eq]
    exact ⟨ha, hd⟩

theorem wfHeap_alloc {h : Heap} (hw : wfHeap h = true) {d : Dict}
    (hd : dictRefsBound h.next d = true) :
    wfHeap (allocDict h d).1 = true := by
  rw [wfHeap, List.all_eq_true]
  intro p hp
  simp only [allocDict] at hp ⊢
  rcases List.mem_cons.mp hp with hp | hp
  · rw [hp]
    simp only [Bool.and_eq_true, decide_eq_true_eq]
    exact ⟨Nat.lt_succ_self _, dictRefsBound_mono (Nat.le_succ _) hd⟩
  · have := (List.all_eq_true.mp hw) p hp
    simp only [Bool.and_eq_true, decide_eq_true_eq] at this ⊢
    exact ⟨by omega, dictRefsBound_mono (Nat.le_succ _) this.2⟩

end Config

namespace Config

theorem setGo_wf (v : HVal) :
    ∀ (ks : List String) (h : Heap) (a : ℕ) (h2 : Heap),
      wfHeap h = true → refBound h.next v = true → a < h.next →
      setGo h a v ks = some h2 →
      wfHeap h2 = true ∧ h.next ≤ h2.next := by
  intro ks
  induction ks with
  | nil => intro h a h2 hw hv ha hs; simp [setGo] at hs
  | cons k rest ih =>
    intro h a h2 hw hv ha hs
    cases rest with
    | nil =>
      simp only [setGo, Option.some.injEq] at hs
      rw [← hs]
      constructor
      · exact wfHeap_heapSet hw ha
          (dictRefsBound_assocSet (dictRefsBound_heapGetD hw a) hv)
      · exact Nat.le_refl _
    | cons k2 rest2 =>
      simp only [setGo] at hs
      split at hs
      case h_1 a2 heq =>
        have ha2 : a2 < h.next := by
          have hm := assocGet_mem heq
          have := refBound_of_mem (dictRefsBound_heapGetD hw a) hm
          simpa [refBound] using this
        exact ih h a2 h2 hw hv ha2 hs
      case h_2 => exact Option.noConfusion hs
      case h_3 heq =>
        have hwal : wfHeap (allocDict h ([] : Dict)).1 = true :=
          wfHeap_alloc hw (by simp [dictRefsBound])
      -- the heap after adding the fresh empty dict and linking it from `a`
        have hw3 : wfHeap (heapSet (allocDict h ([] : Dict)).1 a
            (assocSet (heapGetD (allocDict h ([] : Dict)).1 a) k
              (HVal.ref (allocDict h ([] : Dict)).2))) = true := by
          refine wfHeap_heapSet hwal ?_ ?_
          · simp [allocDict]; omega
          · refine dictRefsBound_assocSet (dictRefsBound_heapGetD hwal a) ?_
            simp [refBound, allocDict]
        have hres := ih _ _ _ hw3 (refBound_mono (by simp [allocDict, heapSet]) hv)
          (by simp [heapSet, allocDict]) hs
        refine ⟨hres.1, ?_⟩
        have := hres.2
        simp only [heapSet, allocDict] at this
        omega

theorem setGo_preserves (v : HVal) :
    ∀ (ks : List String) (h : Heap) (a : ℕ) (h2 : Heap),
      wfHeap h = true → a < h.next →
      setGo h a v ks = some h2 →
      ∀ b, b < h.next → b ∉ navChain h a ks →
        heapGetD h2 b = heapGetD h b := by
  intro ks
  induction ks with
  | nil => intro h a h2 hw ha hs; simp [setGo] at hs
  | cons k rest ih =>
    intro h a h2 hw ha hs b hb hnb
    cases rest with
    | nil =>
      simp only [setGo, Option.some.injEq] at hs
      have hba : b ≠ a := by simpa [navChain] using hnb
      rw [← hs]
      exact heapGetD_heapSet_ne _ _ _ _ hba
    | cons k2 rest2 =>
      simp only [setGo] at hs
      simp only [navChain] at hnb
      split at hs
      case h_1 a2 heq =>
        rw [heq] at hnb
        simp only [List.mem_cons, not_or] at hnb
        have ha2 : a2 < h.next := by
          have hm := assocGet_mem heq
          have := refBound_of_mem (dictRefsBound_heapGetD hw a) hm
          simpa [refBound] using this
        exact ih h a2 h2 hw ha2 hs b hb hnb.2
      case h_2 => exact Option.noConfusion hs
      case h_3 heq =>
        rw [heq] at hnb
        simp only [List.mem_singleton] at hnb
        have hfa : a ≠ h.next := by omega
        have hwal : wfHeap (allocDict h ([] : Dict)).1 = true :=
          wfHeap_alloc hw (by simp [dictRefsBound])
        have hw3 : wfHeap (heapSet (allocDict h ([] : Dict)).1 a
            (assocSet (heapGetD (allocDict h ([] : Dict)).1 a) k
              (HVal.ref (allocDict h ([] : Dict)).2))) = true := by
          refine wfHeap_heapSet hwal ?_ ?_
          · simp [allocDict]; omega
          · refine dictRefsBound_assocSet (dictRefsBound_heapGetD hwal a) ?_
            simp [refBound, allocDict]
        have hgf : heapGetD (heapSet (allocDict h ([] : Dict)).1 a
            (assocSet (heapGetD (allocDict h ([] : Dict)).1 a) k
              (HVal.ref (allocDict h ([] : Dict)).2)))
            (allocDict h ([] : Dict)).2 = ([] : Dict) := by
          rw [heapGetD_heapSet_ne _ _ _ _ (by simp [allocDict]; omega)]
          exact heapGetD_alloc_self h []
        have hchain : navChain (heapSet (allocDict h ([] : Dict)).1 a
            (assocSet (heapGetD (allocDict h ([] : Dict)).1 a) k
              (HVal.ref (allocDict h ([] : Dict)).2)))
            (allocDict h ([] : Dict)).2 (k2 :: rest2) =
            [(allocDict h ([] : Dict)).2] := by
          cases rest2 with
          | nil => rfl
          | cons k3 rest3 => simp [navChain, hgf, assocGet]
        have h23 := ih _ _ _ hw3 (by simp [heapSet, allocDict]) hs b
          (by simp only [heapSet, allocDict]; omega)
          (by rw [hchain]; simp [allocDict]; omega)
        rw [h23]
        rw [heapGetD_heapSet_ne _ _ _ _ hnb]
        exact heapGetD_alloc_ne h [] b (by omega)

end Config

namespace Config

theorem getGo_setGo (v d0 : HVal) :
    ∀ (ks : List String) (h : Heap) (a : ℕ) (h2 : Heap),
      wfHeap h = true → a < h.next → (navChain h a ks).Nodup →
      ks ≠ [] → setGo h a v ks = some h2 →
      getGo h2 (HVal.ref a) d0 ks = v := by
  intro ks
  induction ks with
  | nil => intro h a h2 hw ha hnd hne hs; exact absurd rfl hne
  | cons k rest ih =>
    intro h a h2 hw ha hnd hne hs
    cases rest with
    | nil =>
      simp only [setGo, Option.some.injEq] at hs
      rw [← hs]
      simp [getGo, heapGetD_heapSet_self, assocGet_assocSet_self]
    | cons k2 rest2 =>
      simp only [setGo] at hs
      split at hs
      case h_1 a2 heq =>
        have ha2 : a2 < h.next := by
          have hm := assocGet_mem heq
          have := refBound_of_mem (dictRefsBound_heapGetD hw a) hm
          simpa [refBound] using this
        have hchain : navChain h a (k :: k2 :: rest2) =
            a :: navChain h a2 (k2 :: rest2) := by
          simp [navChain, heq]
        rw [hchain] at hnd
        have hnotin : a ∉ navChain h a2 (k2 :: rest2) :=
          (List.nodup_cons.mp hnd).1
        have hpres := setGo_preserves v (k2 :: rest2) h a2 h2 hw ha2 hs a
          ha hnotin
        have hrec := ih h a2 h2 hw ha2 (List.nodup_cons.mp hnd).2
          (by simp) hs
        simp only [getGo, hpres, heq]
        exact hrec
      case h_2 => exact Option.noConfusion hs
      case h_3 heq =>
        have hfa : a ≠ h.next := by omega
        have hwal : wfHeap (allocDict h ([] : Dict)).1 = true :=
          wfHeap_alloc hw (by simp [dictRefsBound])
        have hw3 : wfHeap (heapSet (allocDict h ([] : Dict)).1 a
            (assocSet (heapGetD (allocDict h ([] : Dict)).1 a) k
              (HVal.ref (allocDict h ([] : Dict)).2))) = true := by
          refine wfHeap_heapSet hwal ?_ ?_
          · simp [allocDict]; omega
          · refine dictRefsBound_assocSet (dictRefsBound_heapGetD hwal a) ?_
            simp [refBound, allocDict]
        have hgf : heapGetD (heapSet (allocDict h ([] : Dict)).1 a
            (assocSet (heapGetD (allocDict h ([] : Dict)).1 a) k
              (HVal.ref (allocDict h ([] : Dict)).2)))
            (allocDict h ([] : Dict)).2 = ([] : Dict) := by
          rw [heapGetD_heapSet_ne _ _ _ _ (by simp [allocDict]; omega)]
          exact heapGetD_alloc_self h []
        have hchain : navChain (heapSet (allocDict h ([] : Dict)).1 a
            (assocSet (heapGetD (allocDict h ([] : Dict)).1 a) k
              (HVal.ref (allocDict h ([] : Dict)).2)))
            (allocDict h ([] : Dict)).2 (k2 :: rest2) =
            [(allocDict h ([] : Dict)).2] := by
          cases rest2 with
          | nil => rfl
          | cons k3 rest3 => simp [navChain, hgf, assocGet]
        -- the dict at `a` in the final heap still binds `k` to the fresh ref
        have hpres := setGo_preserves v (k2 :: rest2) _ _ h2 hw3
          (by simp [heapSet, allocDict]) hs a
          (by simp only [heapSet, allocDict]; omega)
          (by rw [hchain]; simp [allocDict]; omega)
        have hda : heapGetD (heapSet (allocDict h ([] : Dict)).1 a
            (assocSet (heapGetD (allocDict h ([] : Dict)).1 a) k
              (HVal.ref (allocDict h ([] : Dict)).2))) a =
            assocSet (heapGetD (allocDict h ([] : Dict)).1 a) k
              (HVal.ref (allocDict h ([] : Dict)).2) :=
          heapGetD_heapSet_self _ _ _
        have hrec := ih _ _ _ hw3
          (by simp [heapSet, allocDict])
          (by rw [hchain]; simp) (by simp) hs
        simp only [getGo, hpres, hda, assocGet_assocSet_self]
        exact hrec

theorem getGo_ext (d0 : HVal) :
    ∀ (ks : List String) (h hbig : Heap) (cur : HVal),
      wfHeap h = true →
      (∀ b, b < h.next → heapGetD hbig b = heapGetD h b) →
      refBound h.next cur = true →
      getGo hbig cur d0 ks = getGo h cur d0 ks := by
  intro ks
  induction ks with
  | nil => intro h hbig cur hw hagree hcur; rfl
  | cons k rest ih =>
    intro h hbig cur hw hagree hcur
    cases cur with
    | prim p => rfl
    | ref a =>
      have ha : a < h.next := by simpa [refBound] using hcur
      have hsame := hagree a ha
      simp only [getGo, hsame]
      cases heq : assocGet (heapGetD h a) k with
      | none => rfl
      | some v2 =>
        have hv2 : refBound h.next v2 = true := by
          have hm := assocGet_mem heq
          exact refBound_of_mem (dictRefsBound_heapGetD hw a) hm
        exact ih h hbig v2 hw hagree hv2

theorem getGo_default (d0 : HVal) :
    ∀ (ks : List String) (h : Heap) (cur : HVal),
      pathPresent h cur ks = false → getGo h cur d0 ks = d0 := by
  intro ks
  induction ks with
  | nil => intro h cur hp; simp [pathPresent] at hp
  | cons k rest ih =>
    intro h cur hp
    cases cur with
    | prim p => rfl
    | ref a =>
      simp only [pathPresent] at hp
      simp only [getGo]
      cases heq : assocGet (heapGetD h a) k with
      | none => rfl
      | some v2 =>
        rw [heq] at hp
        exact ih h v2 hp

theorem navChain_le {h : Heap} (hd : wfDown h = true) :
    ∀ (ks : List String) (a b : ℕ), b ∈ navChain h a ks → b ≤ a := by
  intro ks
  induction ks with
  | nil =>
    intro a b hb
    simp only [navChain, List.mem_singleton] at hb
    omega
  | cons k rest ih =>
    intro a b hb
    cases rest with
    | nil => simp only [navChain, List.mem_singleton] at hb; omega
    | cons k2 rest2 =>
      simp only [navChain] at hb
      cases heq : assocGet (heapGetD h a) k with
      | none => rw [heq] at hb; simp at hb; omega
      | some w =>
        cases w with
        | prim p => rw [heq] at hb; simp at hb; omega
        | ref a2 =>
          rw [heq] at hb
          rcases List.mem_cons.mp hb with hb | hb
          · omega
          · have hb2 := ih a2 b hb
            have ha2a : a2 < a := by
              cases hsa : assocGet h.store a with
              | none => simp [heapGetD, hsa, assocGet] at heq
              | some dd =>
                have hmem := assocGet_mem hsa
                have hdd := (List.all_eq_true.mp hd) (a, dd) hmem
                have hm2 := assocGet_mem heq
                rw [heapGetD, hsa] at hm2
                have := (List.all_eq_true.mp hdd) _ hm2
                simpa [refBound] using this
            omega

theorem navChain_nodup {h : Heap} (hd : wfDown h = true) :
    ∀ (ks : List String) (a : ℕ), (navChain h a ks).Nodup := by
  intro ks
  induction ks with
  | nil => intro a; simp [navChain]
  | cons k rest ih =>
    intro a
    cases rest with
    | nil => simp [navChain]
    | cons k2 rest2 =>
      simp only [navChain]
      cases heq : assocGet (heapGetD h a) k with
      | none => simp
      | some w =>
        cases w with
        | prim p => simp
        | ref a2 =>
          refine List.nodup_cons.mpr ⟨?_, ih a2⟩
          intro hmem
          have hle := navChain_le hd (k2 :: rest2) a2 a hmem
          have ha2a : a2 < a := by
            cases hsa : assocGet h.store a with
            | none => simp [heapGetD, hsa, assocGet] at heq
            | some dd =>
              have hmem2 := assocGet_mem hsa
              have hdd := (List.all_eq_true.mp hd) (a, dd) hmem2
              have hm2 := assocGet_mem heq
              rw [heapGetD, hsa] at hm2
              have := (List.all_eq_true.mp hdd) _ hm2
              simpa [refBound] using this
          omega

end Config

namespace Config

/-- The `logic_analyzer.default_labels` sub-dict of `DEFAULT_CONFIG`. -/
def default_labels_dict : Dict :=
  [("D0", HVal.prim (PVal.pstr "D0")), ("D1", HVal.prim (PVal.pstr "D1")),
   ("D2", HVal.prim (PVal.pstr "D2")), ("D3", HVal.prim (PVal.pstr "D3")),
   ("D4", HVal.prim (PVal.pstr "D4")), ("D5", HVal.prim (PVal.pstr "D5")),
   ("D6", HVal.prim (PVal.pstr "D6")), ("D7", HVal.prim (PVal.pstr "D7")),
   ("D8", HVal.prim (PVal.pstr "D8")), ("D9", HVal.prim (PVal.pstr "D9")),
   ("D10", HVal.prim (PVal.pstr "D10")),
   ("D11", HVal.prim (PVal.pstr "D11")),
   ("D12", HVal.prim (PVal.pstr "D12")),
   ("D13", HVal.prim (PVal.pstr "D13")),
   ("D14", HVal.prim (PVal.pstr "D14")),
   ("D15", HVal.prim (PVal.pstr "D15"))]

/-- The `instrument` section of `DEFAULT_CONFIG`. -/
def instrument_dict : Dict :=
  [("timeout", HVal.prim (PVal.pint 10000)),
   ("auto_detect", HVal.prim (PVal.pbool true)),
   ("resource_string", HVal.prim PVal.pnone)]

/-- The `gui` section of `DEFAULT_CONFIG`. -/
def gui_dict : Dict :=
  [("window_size", HVal.prim (PVal.pstr "1400x900")),
   ("theme", HVal.prim (PVal.pstr "dark")),
   ("auto_update_rate", HVal.prim (PVal.pnum 2)),
   ("default_points", HVal.prim (PVal.pint 1000))]

/-- The `channels` section of `DEFAULT_CONFIG`. -/
def channels_dict : Dict :=
  [("default_scale", HVal.prim (PVal.pnum 1)),
   ("default_offset", HVal.prim (PVal.pnum 0)),
   ("default_coupling", HVal.prim (PVal.pstr "DC")),
   ("default_probe", HVal.prim (PVal.pnum 10))]

/-- The `logic_analyzer` section of `DEFAULT_CONFIG`; its `default_labels`
entry references the labels sub-dict object at address 0. -/
def logic_analyzer_dict : Dict :=
  [("enabled", HVal.prim (PVal.pbool false)),
   ("default_threshold", HVal.prim (PVal.pstr "TTL")),
   ("custom_threshold_level", HVal.prim (PVal.pnum (3 / 2))),
   ("default_size", HVal.prim (PVal.pint 100)),
   ("default_position", HVal.prim (PVal.pint 0)),
   ("default_labels", HVal.ref 0)]

/-- The `timebase` section of `DEFAULT_CONFIG`. -/
def timebase_dict : Dict :=
  [("default_scale", HVal.prim (PVal.pnum (1 / 1000))),
   ("default_offset", HVal.prim (PVal.pnum 0))]

/-- The `trigger` section of `DEFAULT_CONFIG`. -/
def trigger_dict : Dict :=
  [("default_mode", HVal.prim (PVal.pstr "AUTO")),
   ("default_source", HVal.prim (PVal.pstr "CHAN1")),
   ("default_level", HVal.prim (PVal.pnum 0)),
   ("default_slope", HVal.prim (PVal.pstr "POS"))]

/-- The `logging` section of `DEFAULT_CONFIG`. -/
def logging_dict : Dict :=
  [("level", HVal.prim (PVal.pstr "INFO")),
   ("file", HVal.prim (PVal.pstr "rigol_gui.log"))]

/-- The top-level `DEFAULT_CONFIG` dict: each section is a reference to its
section dict object. -/
def topEntries : Dict :=
  [("instrument", HVal.ref 1), ("gui", HVal.ref 2),
   ("channels", HVal.ref 3), ("logic_analyzer", HVal.ref 4),
   ("timebase", HVal.ref 5), ("trigger", HVal.ref 6),
   ("logging", HVal.ref 7)]

/-- The heap holding the class-level `DEFAULT_CONFIG` (lines 16-61 of
`config.py`): the labels sub-dict at address 0, the seven sections at
addresses 1-7, and the top dict at address 8. -/
def defaultHeap : Heap :=
  ⟨[(0, default_labels_dict), (1, instrument_dict), (2, gui_dict),
    (3, channels_dict), (4, logic_analyzer_dict), (5, timebase_dict),
    (6, trigger_dict), (7, logging_dict), (8, topEntries)], 9⟩

/-- A `Config` object: the heap of dict objects, the address of
`self.config`, and the address of the class-level `DEFAULT_CONFIG`. -/
structure ConfigState where
  heap : Heap
  configAddr : ℕ
  defaultAddr : ℕ
deriving DecidableEq

/-- The components of a dotted key: `key.split('.')`. -/
def keysOf (key : String) : List String :=
  (splitChar '.' key.toList).map (fun cs => String.mk cs)

/-- `Config.get(key, default)` (lines 106-126). -/
def get (st : ConfigState) (key : String) (default : HVal) : HVal :=
  getGo st.heap (HVal.ref st.configAddr) default (keysOf key)

/-- `Config.set(key, value)` (lines 128-146); `none` models the `TypeError`
raised when an existing non-dict value is reached while navigating, which
happens before any mutation.  Values written by the repository are
primitives, so the value argument is a `PVal`. -/
def set (st : ConfigState) (key : String) (value : PVal) :
    Option ConfigState :=
  match setGo st.heap st.configAddr (HVal.prim value) (keysOf key) with
  | some h2 => some ⟨h2, st.configAddr, st.defaultAddr⟩
  | none => none

/-- `Config.reset_to_defaults` (lines 148-150):
`self.config = self.DEFAULT_CONFIG.copy()` — a fresh shallow copy of the
class-level default dict, sharing the nested section objects. -/
def reset_to_defaults (st : ConfigState) : ConfigState :=
  ⟨(allocDict st.heap (heapGetD st.heap st.defaultAddr)).1,
   (allocDict st.heap (heapGetD st.heap st.defaultAddr)).2,
   st.defaultAddr⟩

/-- `Config.__init__` with no config file on disk (lines 63-72):
`self.config = self.DEFAULT_CONFIG.copy()` — a shallow copy (at address 9)
sharing the section dict objects with `DEFAULT_CONFIG`; `load()` finds no
file and leaves the configuration unchanged. -/
def init : ConfigState :=
  ⟨(allocDict defaultHeap (heapGetD defaultHeap 8)).1,
   (allocDict defaultHeap (heapGetD defaultHeap 8)).2, 8⟩

/-- Every value of the top-level `DEFAULT_CONFIG` dict is a reference to a
section dict at an address below 8. -/
theorem topEntries_lookup (k : String) (w : HVal)
    (h : assocGet topEntries k = some w) : ∃ a, w = HVal.ref a ∧ a < 8 := by
  simp only [topEntries, assocGet] at h
  split at h
  · exact ⟨1, (Option.some.inj h).symm, by omega⟩
  · split at h
    · exact ⟨2, (Option.some.inj h).symm, by omega⟩
    · split at h
      · exact ⟨3, (Option.some.inj h).symm, by omega⟩
      · split at h
        · exact ⟨4, (Option.some.inj h).symm, by omega⟩
        · split at h
          · exact ⟨5, (Option.some.inj h).symm, by omega⟩
          · split at h
            · exact ⟨6, (Option.some.inj h).symm, by omega⟩
            · split at h
              · exact ⟨7, (Option.some.inj h).symm, by omega⟩
              · exact Option.noConfusion h

theorem keysOf_ne_nil (key : String) : keysOf key ≠ [] := by
  intro h
  exact RigolDHO954.splitChar_ne_nil '.' key.toList (List.map_eq_nil_iff.mp h)

end Config

namespace Config

/-- C8 counterexample: on a freshly constructed `Config`, setting the key
`gui.theme.deep` raises `TypeError` (the existing prefix `gui.theme` is the
string `dark`, not a dict), so set-then-get cannot return the value; `get`
on that key returns the default instead. -/
theorem config_set_get_counterexample :
    Config.set init "gui.theme.deep" (PVal.pstr "X") = none ∧
    Config.get init "gui.theme.deep" (HVal.prim PVal.pnone) =
      HVal.prim PVal.pnone := by
  constructor
  · rfl
  · rfl

/-- C8 (amended): on every well-formed configuration state, whenever
`Config.set(k, v)` completes without raising, `Config.get(k)` afterwards
returns exactly `v`; and for every key whose path is not present in the
configuration, `Config.get(k, default)` returns the supplied default.  (The
unqualified round trip fails: `set` raises `TypeError` on keys whose
existing path prefix resolves to a non-dict value, see the
counterexample.) -/
theorem config_set_get_roundtrip (st : ConfigState)
    (hw : wfHeap st.heap = true) (hdown : wfDown st.heap = true)
    (haddr : st.configAddr < st.heap.next) :
    (∀ key value st2 d0, Config.set st key value = some st2 →
      Config.get st2 key d0 = HVal.prim value) ∧
    (∀ key d0,
      pathPresent st.heap (HVal.ref st.configAddr) (keysOf key) = false →
      Config.get st key d0 = d0) := by
  constructor
  · intro key value st2 d0 hset
    cases hsg : setGo st.heap st.configAddr (HVal.prim value)
        (keysOf key) with
    | none => simp [Config.set, hsg] at hset
    | some h2 =>
      simp only [Config.set, hsg, Option.some.injEq] at hset
      rw [← hset]
      exact getGo_setGo _ _ _ _ _ _ hw haddr
        (navChain_nodup hdown _ _) (keysOf_ne_nil key) hsg
  · intro key d0 hp
    exact getGo_default _ _ _ _ hp

/-- The state after setting `test.value` on a fresh `Config`, as the
repository test does. -/
def witState : ConfigState :=
  (Config.set init "test.value" (PVal.pstr "hello")).getD init

/-- Witness for C8: the round trip of the repository test, plus a default
lookup of an absent key. -/
theorem config_set_get_roundtrip_witness :
    Config.get witState "test.value" (HVal.prim PVal.pnone) =
      HVal.prim (PVal.pstr "hello") ∧
    Config.get init "missing.key" (HVal.prim PVal.pnone) =
      HVal.prim PVal.pnone := by
  constructor
  · exact (config_set_get_roundtrip init (by decide) (by decide)
      (by decide)).1 "test.value" (PVal.pstr "hello") witState
      (HVal.prim PVal.pnone) (by rfl)
  · exact (config_set_get_roundtrip init (by decide) (by decide)
      (by decide)).2 "missing.key" (HVal.prim PVal.pnone) (by rfl)

end Config

namespace Config

/-- C9 counterexample: `gui` is a top-level section of `DEFAULT_CONFIG`,
and `gui.theme.x` has three components, yet `Config.set("gui.theme.x", v)`
raises `TypeError` (navigating into the string `dark`), so the
set-reset-get sequence cannot return `v` for that key. -/
theorem config_reset_aliasing_counterexample :
    (assocGet (heapGetD init.heap init.defaultAddr) "gui").isSome = true ∧
    Config.set init "gui.theme.x" (PVal.pstr "X") = none := by
  constructor
  · rfl
  · rfl

/-- C9 (amended): for every dotted key with at least two components whose
top-level section exists in `DEFAULT_CONFIG` and for which `Config.set`
completes without raising, the mutation lands in a section dict object that
the shallow `DEFAULT_CONFIG.copy()` of `reset_to_defaults` shares, so
`Config.get` after the reset still returns the written value rather than
the built-in default. -/
theorem config_reset_aliasing (key k1 r1 : String) (rest : List String)
    (value : PVal) (d0 : HVal) (st2 : ConfigState)
    (hk : keysOf key = k1 :: r1 :: rest)
    (hsec : (assocGet (heapGetD init.heap init.defaultAddr) k1).isSome =
      true)
    (hset : Config.set init key value = some st2) :
    Config.get (reset_to_defaults st2) key d0 = HVal.prim value := by
  have hwf : wfHeap init.heap = true := by decide
  have hdown : wfDown init.heap = true := by decide
  have htop9 : heapGetD init.heap 9 = topEntries := rfl
  have htop8 : heapGetD init.heap 8 = topEntries := rfl
  obtain ⟨w, hw⟩ := Option.isSome_iff_exists.mp hsec
  rw [show (heapGetD init.heap init.defaultAddr) = topEntries from rfl]
    at hw
  obtain ⟨a1, hwa, ha1⟩ := topEntries_lookup k1 w hw
  rw [hwa] at hw
  -- extract the successful inner navigation from `hset`
  simp only [Config.set, hk] at hset
  rw [show init.configAddr = 9 from rfl] at hset
  cases hsg : setGo init.heap 9 (HVal.prim value) (k1 :: r1 :: rest) with
  | none => rw [hsg] at hset; exact Option.noConfusion hset
  | some h2 =>
    rw [hsg] at hset
    have hst2 : st2 = ⟨h2, 9, 8⟩ := (Option.some.inj hset).symm
    have hsg2 : setGo init.heap a1 (HVal.prim value) (r1 :: rest) =
        some h2 := by
      have hx := hsg
      simp only [setGo, htop9, hw] at hx
      exact hx
    have hnext : init.heap.next = 10 := rfl
    have ha1n : a1 < init.heap.next := by omega
    -- the write round-trips inside the section dict
    have hrt : getGo h2 (HVal.ref a1) d0 (r1 :: rest) = HVal.prim value :=
      getGo_setGo _ _ _ _ _ _ hwf ha1n (navChain_nodup hdown _ _)
        (by simp) hsg2
    obtain ⟨hw2, hn2⟩ := setGo_wf (HVal.prim value) (r1 :: rest)
      init.heap a1 h2 hwf (by rfl) ha1n hsg2
    -- the top default dict at address 8 is untouched by the write
    have hp8 : heapGetD h2 8 = heapGetD init.heap 8 := by
      refine setGo_preserves _ _ _ _ _ hwf ha1n hsg2 8 (by omega) ?_
      intro hmem
      have := navChain_le hdown (r1 :: rest) a1 8 hmem
      omega
    have hagree : ∀ b, b < h2.next →
        heapGetD (allocDict h2 (heapGetD h2 8)).1 b = heapGetD h2 b := by
      intro b hb
      exact heapGetD_alloc_ne _ _ _ (by omega)
    have hext := getGo_ext d0 (r1 :: rest) h2
      (allocDict h2 (heapGetD h2 8)).1 (HVal.ref a1) hw2 hagree
      (by simp only [refBound, decide_eq_true_eq]; omega)
    -- unfold the reset and the get, one navigation step at a time
    rw [hst2]
    have hCopy : Config.get
        (reset_to_defaults (⟨h2, 9, 8⟩ : ConfigState)) key d0 =
        getGo (allocDict h2 (heapGetD h2 8)).1
          (HVal.ref (allocDict h2 (heapGetD h2 8)).2) d0
          (k1 :: r1 :: rest) := by
      simp only [Config.get, reset_to_defaults, hk]
    have hlook : assocGet (heapGetD (allocDict h2 (heapGetD h2 8)).1
        (allocDict h2 (heapGetD h2 8)).2) k1 = some (HVal.ref a1) := by
      rw [heapGetD_alloc_self, hp8, htop8]
      exact hw
    have hone : getGo (allocDict h2 (heapGetD h2 8)).1
        (HVal.ref (allocDict h2 (heapGetD h2 8)).2) d0
        (k1 :: r1 :: rest) =
        getGo (allocDict h2 (heapGetD h2 8)).1 (HVal.ref a1) d0
          (r1 :: rest) := by
      simp only [getGo, hlook]
    rw [hCopy, hone, hext]
    exact hrt

/-- The state after setting `channels.default_scale` on a fresh
`Config`. -/
def c9WitState : ConfigState :=
  (Config.set init "channels.default_scale" (PVal.pnum 2)).getD init

/-- Witness for C9: after writing `channels.default_scale = 2` and
resetting to defaults, the read still returns 2. -/
theorem config_reset_aliasing_witness :
    Config.get (reset_to_defaults c9WitState) "channels.default_scale"
      (HVal.prim PVal.pnone) = HVal.prim (PVal.pnum 2) :=
  config_reset_aliasing "channels.default_scale" "channels"
    "default_scale" [] (PVal.pnum 2) (HVal.prim PVal.pnone) c9WitState
    rfl rfl rfl

end Config
